import Mathlib

/-!
Verification of the `plan` package of complytime/complyctl (assessment-scope
building and assessment-plan filtering).

The Go source is shallowly embedded as follows.

* `includeControlsSet` (a Go `map[string]struct{}`) is embedded as a
  duplicate-free `List String` kept in insertion order; Go's unspecified map
  iteration order is refined deterministically to that insertion order.
* Optional pointers / nilable slices become `Option` values.  A nil slice is
  `none`; a non-nil slice with elements `l` is `some l`.  The distinction
  matters: the source tests `== nil` on slices and pointers.
* In-place mutation of the assessment plan becomes explicit state passing:
  each loop of `applyControlScope` is a fold that returns the updated values.
* A nil-pointer dereference (a Go panic) is modelled by returning `none` from
  the whole traversal, so `applyControlScope` returns `Option AssessmentPlan`.
* The title-resolution collaborator (`getControlTitle` together with its
  injected `ApplicationDirectory`, `Validator` and `ProfileLoader`
  dependencies, all of which perform external document I/O) is embedded as an
  abstract function parameter of type `TitleResolver`; Go's
  `appDir != nil && validator != nil && profileLoader != nil` guard becomes
  the `Option` on that parameter.  All theorems quantify over the resolver.
* Untouched metadata fields of the external OSCAL record types (uuid, title,
  description, links, remarks, ...) are omitted; every field the embedded
  functions read or write is present.
-/

namespace Complyctl

/-- OSCAL `Property` (external type): the fields read and written by the
`plan` package. -/
@[ext]
structure Property where
  name : String
  value : String
  ns : String
deriving DecidableEq, Repr

/-- `extensions.TrestleNameSpace` from oscal-sdk-go (an opaque constant
string; its exact value is irrelevant to every claim). -/
def TrestleNameSpace : String := "https://oscal-compass.github.io/compliance-trestle/schemas/oscal"

/-- `extensions.FrameworkProp` from oscal-sdk-go. -/
def FrameworkProp : String := "Framework"

/-- External collaborator `extensions.GetTrestleProp`: finds the first
property with the given name in the trestle namespace. -/
def GetTrestleProp (nm : String) (props : List Property) : Option Property :=
  props.find? (fun p => p.name == nm && p.ns == TrestleNameSpace)

/-- `includeControlsSet.Add` (and its duplicate `Added`): Go map insert,
embedded on an insertion-ordered duplicate-free list. -/
def icsAdd (s : List String) (x : String) : List String :=
  if x ∈ s then s else s ++ [x]

theorem mem_icsAdd {s : List String} {x y : String} :
    y ∈ icsAdd s x ↔ y ∈ s ∨ y = x := by
  unfold icsAdd
  split
  · rename_i h
    constructor
    · exact Or.inl
    · rintro (hy | rfl)
      · exact hy
      · exact h
  · simp [List.mem_append]

theorem nodup_icsAdd {s : List String} {x : String} (h : s.Nodup) :
    (icsAdd s x).Nodup := by
  unfold icsAdd
  split
  · exact h
  · rename_i hx
    simp [List.nodup_append, h, hx]

theorem mem_icsAdd_self {s : List String} {x : String} : x ∈ icsAdd s x :=
  mem_icsAdd.mpr (Or.inr rfl)

theorem mem_icsAdd_of_mem {s : List String} {x y : String} (h : y ∈ s) :
    y ∈ icsAdd s x :=
  mem_icsAdd.mpr (Or.inl h)

theorem mem_foldl_icsAdd {xs : List String} :
    ∀ {y : String} {init : List String},
      y ∈ xs.foldl icsAdd init ↔ y ∈ init ∨ y ∈ xs := by
  induction xs with
  | nil => simp
  | cons x xs ih =>
    intro y init
    simp only [List.foldl_cons, ih, mem_icsAdd, List.mem_cons]
    tauto

/-- OSCAL `AssessedControlsSelectControlById` (external type). -/
@[ext]
structure AssessedControlsSelectControlById where
  controlId : String
deriving DecidableEq, Repr

/-- OSCAL `AssessedControls` (a control-selection node, external type).
`IncludeAll *IncludeAll` is an empty marker struct behind a pointer, so its
presence is `Option Unit`. -/
@[ext]
structure AssessedControls where
  includeAll : Option Unit
  includeControls : Option (List AssessedControlsSelectControlById)
  excludeControls : Option (List AssessedControlsSelectControlById)
  props : Option (List Property)
deriving DecidableEq, Repr

/-- OSCAL `ReviewedControls` (external type): the container of
control-selection nodes at the plan root, on activities (as
`RelatedControls`) and on steps. -/
@[ext]
structure ReviewedControls where
  controlSelections : Option (List AssessedControls)
deriving DecidableEq, Repr

/-- OSCAL `Step` (external type). -/
@[ext]
structure Step where
  reviewedControls : Option ReviewedControls
  props : Option (List Property)
deriving DecidableEq, Repr

/-- OSCAL `Activity` (external type). -/
@[ext]
structure Activity where
  relatedControls : Option ReviewedControls
  steps : Option (List Step)
  props : Option (List Property)
deriving DecidableEq, Repr

/-- OSCAL `LocalDefinitions` (external type). -/
@[ext]
structure LocalDefinitions where
  activities : Option (List Activity)
deriving DecidableEq, Repr

/-- OSCAL `AssessmentPlan` (external type).  `ReviewedControls` is a plain
struct field in Go (not a pointer), hence not optional here. -/
@[ext]
structure AssessmentPlan where
  reviewedControls : ReviewedControls
  localDefinitions : Option LocalDefinitions
deriving DecidableEq, Repr

/-- `ControlEntry` — a control in the assessment scope. -/
@[ext]
structure ControlEntry where
  controlID : String
  controlTitle : String
  rules : List String
deriving DecidableEq, Repr

/-- `AssessmentScope` — the framework id together with the controls in scope. -/
@[ext]
structure AssessmentScope where
  frameworkID : String
  includeControls : List ControlEntry
deriving DecidableEq, Repr

/-- The property names of a selection node's property bag (empty when the bag
is absent). -/
def propNames (cs : AssessedControls) : List String :=
  (cs.props.getD []).map Property.name

/-- The `originalIncludedControls` set built at the top of
`filterControlSelection`: the loop adds each entry's `ControlId` and — via
`includeControlsSet.Added` on `Property.Name` — every property name of the
node's bag, then repeats both additions in a second pass.  All of it is
guarded by `IncludeControls != nil`. -/
def originalIncludedControls (cs : AssessedControls) : List String :=
  match cs.includeControls with
  | none => []
  | some l =>
    let o1 := l.foldl
      (fun o c => (propNames cs).foldl icsAdd (icsAdd o c.controlId)) []
    let o2 := l.foldl (fun o c => icsAdd o c.controlId) o1
    (propNames cs).foldl icsAdd o2

/-- The new include list computed by `filterControlSelection`: every control
of the in-scope set that is covered by the include-all marker or is a member
of `originalIncludedControls`, in scope-set iteration order. -/
def newIncludedIds (cs : AssessedControls) (included : List String) : List String :=
  included.filter (fun id => cs.includeAll.isSome || decide (id ∈ originalIncludedControls cs))

/-- `filterControlSelection`: clears the include-all marker and replaces
`IncludeControls` with the computed list, or with `nil` when the list came
out empty. -/
def filterControlSelection (cs : AssessedControls) (included : List String) :
    AssessedControls :=
  let newIds := newIncludedIds cs included
  { cs with
    includeAll := none
    includeControls :=
      if newIds = [] then none
      else some (newIds.map (fun id => { controlId := id })) }

theorem mem_foldl_icsAdd_ids {l : List AssessedControlsSelectControlById} :
    ∀ {y : String} {init : List String},
      y ∈ l.foldl (fun o c => icsAdd o c.controlId) init ↔
        y ∈ init ∨ y ∈ l.map AssessedControlsSelectControlById.controlId := by
  induction l with
  | nil => simp
  | cons c l ih =>
    intro y init
    simp only [List.foldl_cons, ih, mem_icsAdd, List.map_cons, List.mem_cons]
    tauto

theorem mem_foldl_icsAdd_withNames {names : List String}
    {l : List AssessedControlsSelectControlById} :
    ∀ {y : String} {init : List String},
      y ∈ l.foldl (fun o c => names.foldl icsAdd (icsAdd o c.controlId)) init ↔
        y ∈ init ∨ y ∈ l.map AssessedControlsSelectControlById.controlId ∨
          (l ≠ [] ∧ y ∈ names) := by
  induction l with
  | nil => simp
  | cons c l ih =>
    intro y init
    simp only [List.foldl_cons, ih, mem_foldl_icsAdd, mem_icsAdd, List.map_cons,
      List.mem_cons, ne_eq, List.cons_ne_nil, not_false_eq_true, true_and]
    constructor
    · rintro ((((h | h) | h) | h) | h) <;> tauto
    · rintro (h | ((h | h) | h)) <;> tauto

theorem originalIncludedControls_none {cs : AssessedControls}
    (h : cs.includeControls = none) : originalIncludedControls cs = [] := by
  unfold originalIncludedControls
  rw [h]

theorem mem_originalIncludedControls {cs : AssessedControls}
    {l : List AssessedControlsSelectControlById} (h : cs.includeControls = some l)
    {y : String} :
    y ∈ originalIncludedControls cs ↔
      y ∈ l.map AssessedControlsSelectControlById.controlId ∨ y ∈ propNames cs := by
  unfold originalIncludedControls
  rw [h]
  simp only [mem_foldl_icsAdd, mem_foldl_icsAdd_ids, mem_foldl_icsAdd_withNames,
    List.mem_nil_iff, ne_eq]
  constructor
  · rintro ((((h | h) | h) | h) | h) <;> tauto
  · rintro (h | h) <;> tauto

theorem filter_includeAll (cs : AssessedControls) (inc : List String) :
    (filterControlSelection cs inc).includeAll = none := rfl

theorem filter_excludeControls (cs : AssessedControls) (inc : List String) :
    (filterControlSelection cs inc).excludeControls = cs.excludeControls := rfl

theorem filter_props (cs : AssessedControls) (inc : List String) :
    (filterControlSelection cs inc).props = cs.props := rfl

theorem filter_includeControls (cs : AssessedControls) (inc : List String) :
    (filterControlSelection cs inc).includeControls =
      if newIncludedIds cs inc = [] then none
      else some ((newIncludedIds cs inc).map (fun id => { controlId := id })) := rfl

theorem propNames_filter (cs : AssessedControls) (inc : List String) :
    propNames (filterControlSelection cs inc) = propNames cs := rfl

/-- When a selection has no include-all marker and no explicit include list,
the filter empties it. -/
theorem newIncludedIds_of_empty {cs : AssessedControls} (h1 : cs.includeAll = none)
    (h2 : cs.includeControls = none) (inc : List String) :
    newIncludedIds cs inc = [] := by
  unfold newIncludedIds
  rw [List.filter_eq_nil_iff]
  intro a _
  simp [h1, originalIncludedControls_none h2]

theorem mem_newIncludedIds {cs : AssessedControls} {inc : List String} {id : String} :
    id ∈ newIncludedIds cs inc ↔
      id ∈ inc ∧ (cs.includeAll.isSome = true ∨ id ∈ originalIncludedControls cs) := by
  unfold newIncludedIds
  rw [List.mem_filter]
  simp [Bool.or_eq_true]

/-- Applying `filterControlSelection` twice with the same in-scope set gives
the same node as applying it once. -/
theorem filterControlSelection_idem (cs : AssessedControls) (inc : List String) :
    filterControlSelection (filterControlSelection cs inc) inc =
      filterControlSelection cs inc := by
  set cs' := filterControlSelection cs inc with hcs'
  have hAll : cs'.includeAll = none := filter_includeAll cs inc
  have hpn : propNames cs' = propNames cs := rfl
  by_cases hempty : newIncludedIds cs inc = []
  · -- the node was emptied: marker and list are both gone, the second pass
    -- computes an empty list again and leaves every field in place
    have hinc : cs'.includeControls = none := by
      rw [hcs', filter_includeControls, if_pos hempty]
    have h2 : newIncludedIds cs' inc = [] :=
      newIncludedIds_of_empty hAll hinc inc
    apply AssessedControls.ext
    · rw [filter_includeAll, hAll]
    · rw [filter_includeControls, if_pos h2, hinc]
    · exact filter_excludeControls cs' inc
    · exact filter_props cs' inc
  · -- the node kept a non-empty include list; the second pass recomputes
    -- exactly the same list
    have hinc : cs'.includeControls =
        some ((newIncludedIds cs inc).map (fun id => { controlId := id })) := by
      rw [hcs', filter_includeControls, if_neg hempty]
    have hids : ((newIncludedIds cs inc).map
        (fun id => ({ controlId := id } : AssessedControlsSelectControlById))).map
          AssessedControlsSelectControlById.controlId = newIncludedIds cs inc := by
      rw [List.map_map]
      exact List.map_id _
    have hsame : newIncludedIds cs' inc = newIncludedIds cs inc := by
      unfold newIncludedIds
      apply List.filter_congr
      intro id hid
      rw [hAll]
      simp only [Option.isSome_none, Bool.false_or]
      rw [Bool.eq_iff_iff]
      simp only [decide_eq_true_eq, Bool.or_eq_true]
      rw [mem_originalIncludedControls hinc, hids, hpn]
      constructor
      · rintro (hmem | hpn')
        · -- a control of the first-pass output satisfied the first-pass test
          exact (mem_newIncludedIds.mp hmem).2
        · -- a property name: it is already in the original set when the
          -- explicit list is present, and otherwise forces the marker
          cases hic : cs.includeControls with
          | some l₀ =>
            exact Or.inr ((mem_originalIncludedControls hic).mpr (Or.inr hpn'))
          | none =>
            obtain ⟨id₀, hid₀⟩ := List.exists_mem_of_ne_nil _ hempty
            rcases (mem_newIncludedIds.mp hid₀).2 with hsome | horig
            · exact Or.inl hsome
            · rw [originalIncludedControls_none hic] at horig
              exact absurd horig (List.not_mem_nil id₀)
      · intro h
        exact Or.inl (mem_newIncludedIds.mpr ⟨hid, h⟩)
    apply AssessedControls.ext
    · rw [filter_includeAll, hAll]
    · rw [filter_includeControls, hsame, if_neg hempty, hinc]
    · exact filter_excludeControls cs' inc
    · exact filter_props cs' inc

/-- The `skipped="true"` annotation property appended by `applyControlScope`. -/
def skippedProp : Property :=
  { name := "skipped", value := "true", ns := TrestleNameSpace }

/-- Appending the skipped annotation, creating the bag when it is absent
(`if Props == nil { Props = &[]Property{} }` followed by `append`). -/
def appendSkipped (props : Option (List Property)) : Option (List Property) :=
  some (props.getD [] ++ [skippedProp])

/-- One iteration of the loop over an activity's `RelatedControls`
control-selections: filter the node in place; when it comes out with no
include list, clear the activity's `RelatedControls` and append the skipped
annotation to the activity's property bag.  The accumulator carries the
in-place-mutated slice and the activity. -/
def relatedStep (inc : List String) (acc : List AssessedControls × Activity)
    (cs : AssessedControls) : List AssessedControls × Activity :=
  (acc.1 ++ [filterControlSelection cs inc],
    if (filterControlSelection cs inc).includeControls = none then
      { acc.2 with relatedControls := none, props := appendSkipped acc.2.props }
    else acc.2)

/-- The `activity.RelatedControls` block of `applyControlScope`: runs only
when the activity has a non-nil `RelatedControls` with a non-nil
`ControlSelections` slice; the filtered slice stays attached to the activity
exactly when the loop never cleared `RelatedControls`. -/
def processActivityRelated (inc : List String) (act : Activity) : Activity :=
  match act.relatedControls with
  | none => act
  | some rc =>
    match rc.controlSelections with
    | none => act
    | some sels =>
      match (sels.foldl (relatedStep inc) ([], act)).2.relatedControls with
      | none => (sels.foldl (relatedStep inc) ([], act)).2
      | some rc' =>
        { (sels.foldl (relatedStep inc) ([], act)).2 with
          relatedControls :=
            some { rc' with
                   controlSelections := some (sels.foldl (relatedStep inc) ([], act)).1 } }

/-- One iteration of the loop over a step's `ReviewedControls`
control-selections.  When a node filters to no include list the source first
executes `activity.RelatedControls.ControlSelections = nil` — a nil-pointer
dereference (panic, modelled as `none`) whenever the activity has no
`RelatedControls` — then clears the step's `ReviewedControls` and appends the
skipped annotation to the step's property bag. -/
def stepSel (inc : List String)
    (acc : Option (List AssessedControls × Activity × Step)) (cs : AssessedControls) :
    Option (List AssessedControls × Activity × Step) :=
  match acc with
  | none => none
  | some (done, a, s) =>
    if (filterControlSelection cs inc).includeControls = none then
      match a.relatedControls with
      | none => none
      | some arc =>
        some (done ++ [filterControlSelection cs inc],
          { a with relatedControls := some { arc with controlSelections := none } },
          { s with reviewedControls := none, props := appendSkipped s.props })
    else some (done ++ [filterControlSelection cs inc], a, s)

/-- Processing of a single step inside the `activity.Steps` loop: skipped
when the step has no `ReviewedControls` or no `ControlSelections`; the
filtered slice stays attached to the step exactly when the loop never
cleared the step's `ReviewedControls`. -/
def processStep (inc : List String) (a : Activity) (s : Step) :
    Option (Activity × Step) :=
  match s.reviewedControls with
  | none => some (a, s)
  | some rc =>
    match rc.controlSelections with
    | none => some (a, s)
    | some sels =>
      match sels.foldl (stepSel inc) (some ([], a, s)) with
      | none => none
      | some (done, a', s') =>
        match s'.reviewedControls with
        | none => some (a', s')
        | some src =>
          some (a', { s' with reviewedControls := some { src with controlSelections := some done } })

/-- One iteration of the loop over an activity's steps. -/
def stepsStep (inc : List String) (acc : Option (List Step × Activity)) (st : Step) :
    Option (List Step × Activity) :=
  match acc with
  | none => none
  | some (done, a) =>
    match processStep inc a st with
    | none => none
    | some (a', st') => some (done ++ [st'], a')

/-- Processing of one activity of `LocalDefinitions.Activities`: the
`RelatedControls` block followed by the `Steps` block. -/
def processActivity (inc : List String) (act : Activity) : Option Activity :=
  match (processActivityRelated inc act).steps with
  | none => some (processActivityRelated inc act)
  | some stl =>
    match stl.foldl (stepsStep inc) (some ([], processActivityRelated inc act)) with
    | none => none
    | some (done, a) => some { a with steps := some done }

/-- One iteration of the loop over the activities. -/
def activitiesStep (inc : List String) (acc : Option (List Activity)) (act : Activity) :
    Option (List Activity) :=
  match acc with
  | none => none
  | some done =>
    match processActivity inc act with
    | none => none
    | some a' => some (done ++ [a'])

/-- The `LocalDefinitions` block of `applyControlScope`. -/
def applyLocalDefinitions (inc : List String) (plan : AssessmentPlan) :
    Option AssessmentPlan :=
  match plan.localDefinitions with
  | none => some plan
  | some ld =>
    match ld.activities with
    | none => some plan
    | some acts =>
      match acts.foldl (activitiesStep inc) (some []) with
      | none => none
      | some done =>
        some { plan with localDefinitions := some { ld with activities := some done } }

/-- The final block of `applyControlScope`: filtering of the plan root's
`ReviewedControls.ControlSelections`, when that slice is non-nil. -/
def applyRoot (inc : List String) (p : AssessmentPlan) : AssessmentPlan :=
  match p.reviewedControls.controlSelections with
  | none => p
  | some sels =>
    { p with reviewedControls := ⟨some (sels.map (fun cs => filterControlSelection cs inc))⟩ }

/-- The in-scope membership set built from the scope's `IncludeControls`. -/
def buildIncludedControls (a : AssessmentScope) : List String :=
  a.includeControls.foldl (fun s e => icsAdd s e.controlID) []

/-- `AssessmentScope.applyControlScope`.  The read-only loop at the top of
the source (ranging over the root control selections and reading each
property's `Name` into the blank identifier) has no effect and is omitted.
`none` models a Go panic. -/
def applyControlScope (a : AssessmentScope) (plan : AssessmentPlan) :
    Option AssessmentPlan :=
  match applyLocalDefinitions (buildIncludedControls a) plan with
  | none => none
  | some p => some (applyRoot (buildIncludedControls a) p)

/-- `AssessmentScope.ApplyScope`: a thin wrapper around `applyControlScope`
(the logger argument carries no semantics). -/
def ApplyScope (a : AssessmentScope) (plan : AssessmentPlan) :
    Option AssessmentPlan :=
  applyControlScope a plan

/-! Generic fold lemmas used to reason about the loops. -/

theorem foldl_preserves {σ α : Type} {P : σ → Prop} {f : σ → α → σ}
    (mono : ∀ s a, P s → P (f s a)) :
    ∀ (l : List α) (s : σ), P s → P (l.foldl f s) := by
  intro l
  induction l with
  | nil => intro s h; exact h
  | cons a l ih => intro s h; exact ih (f s a) (mono s a h)

theorem foldl_pred_of_mem {σ α : Type} {P : σ → Prop} {f : σ → α → σ} {x : α}
    (mono : ∀ s a, P s → P (f s a)) (est : ∀ s, P (f s x)) :
    ∀ {l : List α}, x ∈ l → ∀ s, P (l.foldl f s) := by
  intro l
  induction l with
  | nil => intro h; exact absurd h (List.not_mem_nil x)
  | cons a l ih =>
    intro hx s
    rw [List.foldl_cons]
    rcases List.mem_cons.mp hx with rfl | hx'
    · exact foldl_preserves mono l (f s x) (est s)
    · exact ih hx' (f s a)

/-! A plan is *fully filtered* w.r.t. an in-scope set when every reachable
control-selection node is a fixed point of `filterControlSelection`, and
every selection node below an activity or step additionally kept a non-nil
include list (otherwise the first pass would have pruned its container). -/

/-- A selection node the applier leaves untouched on a second pass. -/
def GoodSel (inc : List String) (cs : AssessedControls) : Prop :=
  filterControlSelection cs inc = cs ∧ cs.includeControls ≠ none

/-- All selection nodes reachable through an optional `ReviewedControls`
container are good. -/
def GoodRC (inc : List String) (rc : Option ReviewedControls) : Prop :=
  ∀ r, rc = some r → ∀ l, r.controlSelections = some l → ∀ cs ∈ l, GoodSel inc cs

def GoodStep (inc : List String) (s : Step) : Prop :=
  GoodRC inc s.reviewedControls

def GoodActivity (inc : List String) (a : Activity) : Prop :=
  GoodRC inc a.relatedControls ∧
    ∀ stl, a.steps = some stl → ∀ st ∈ stl, GoodStep inc st

def GoodPlan (inc : List String) (p : AssessmentPlan) : Prop :=
  (∀ l, p.reviewedControls.controlSelections = some l →
      ∀ cs ∈ l, filterControlSelection cs inc = cs) ∧
  (∀ ld, p.localDefinitions = some ld → ∀ acts, ld.activities = some acts →
      ∀ a ∈ acts, GoodActivity inc a)

theorem goodRC_none {inc : List String} : GoodRC inc none := by
  intro r hr
  exact absurd hr (by simp)

theorem goodRC_of_selections_none {inc : List String} {r : ReviewedControls}
    (h : r.controlSelections = none) : GoodRC inc (some r) := by
  intro r' hr' l hl
  cases hr'
  rw [h] at hl
  exact absurd hl (by simp)

/-! Structure-eta helpers: writing a field back with its current value is the
identity. -/

theorem rc_eta {rc : ReviewedControls} {x : Option (List AssessedControls)}
    (h : rc.controlSelections = x) :
    ({ controlSelections := x } : ReviewedControls) = rc := by
  subst h; rfl

theorem act_steps_eta {act : Activity} {x : Option (List Step)}
    (h : act.steps = x) : ({ act with steps := x }) = act := by
  subst h; rfl

theorem act_rel_eta {act : Activity} {x : Option ReviewedControls}
    (h : act.relatedControls = x) : ({ act with relatedControls := x }) = act := by
  subst h; rfl

theorem step_rc_eta {st : Step} {x : Option ReviewedControls}
    (h : st.reviewedControls = x) : ({ st with reviewedControls := x }) = st := by
  subst h; rfl

theorem ld_eta {ld : LocalDefinitions} {x : Option (List Activity)}
    (h : ld.activities = x) : ({ activities := x } : LocalDefinitions) = ld := by
  subst h; rfl

theorem plan_ld_eta {p : AssessmentPlan} {x : Option LocalDefinitions}
    (h : p.localDefinitions = x) : ({ p with localDefinitions := x }) = p := by
  subst h; rfl

theorem plan_rc_eta {p : AssessmentPlan} {x : ReviewedControls}
    (h : p.reviewedControls = x) : ({ p with reviewedControls := x }) = p := by
  subst h; rfl

theorem map_filter_fixed {inc : List String} {l : List AssessedControls}
    (h : ∀ cs ∈ l, filterControlSelection cs inc = cs) :
    l.map (fun cs => filterControlSelection cs inc) = l := by
  induction l with
  | nil => rfl
  | cons cs l ih =>
    rw [List.map_cons, h cs (List.mem_cons_self cs l),
      ih (fun x hx => h x (List.mem_cons_of_mem cs hx))]

/-! Lemmas about the `RelatedControls` loop. -/

theorem relatedStep_fst (inc : List String) (acc : List AssessedControls × Activity)
    (cs : AssessedControls) :
    (relatedStep inc acc cs).1 = acc.1 ++ [filterControlSelection cs inc] := rfl

theorem relatedStep_steps (inc : List String) (acc : List AssessedControls × Activity)
    (cs : AssessedControls) :
    (relatedStep inc acc cs).2.steps = acc.2.steps := by
  unfold relatedStep
  dsimp only
  split <;> rfl

theorem relatedStep_rel_none (inc : List String) (acc : List AssessedControls × Activity)
    (cs : AssessedControls) (h : acc.2.relatedControls = none) :
    (relatedStep inc acc cs).2.relatedControls = none := by
  unfold relatedStep
  dsimp only
  split
  · rfl
  · exact h

theorem relatedFold_fst (inc : List String) (sels : List AssessedControls) :
    ∀ acc : List AssessedControls × Activity,
      (sels.foldl (relatedStep inc) acc).1 =
        acc.1 ++ sels.map (fun cs => filterControlSelection cs inc) := by
  induction sels with
  | nil => intro acc; simp
  | cons cs sels ih =>
    intro acc
    rw [List.foldl_cons, ih, relatedStep_fst, List.map_cons, List.append_assoc,
      List.singleton_append]

theorem relatedFold_steps (inc : List String) (sels : List AssessedControls) :
    ∀ acc : List AssessedControls × Activity,
      (sels.foldl (relatedStep inc) acc).2.steps = acc.2.steps := by
  induction sels with
  | nil => intro acc; rfl
  | cons cs sels ih =>
    intro acc
    rw [List.foldl_cons, ih, relatedStep_steps]

theorem relatedFold_rel_none (inc : List String) (sels : List AssessedControls) :
    ∀ acc : List AssessedControls × Activity, acc.2.relatedControls = none →
      (sels.foldl (relatedStep inc) acc).2.relatedControls = none := by
  induction sels with
  | nil => intro acc h; exact h
  | cons cs sels ih =>
    intro acc h
    rw [List.foldl_cons]
    exact ih _ (relatedStep_rel_none inc acc cs h)

theorem relatedFold_all_nonempty (inc : List String) {sels : List AssessedControls}
    (h : ∀ cs ∈ sels, (filterControlSelection cs inc).includeControls ≠ none) :
    ∀ acc : List AssessedControls × Activity,
      sels.foldl (relatedStep inc) acc =
        (acc.1 ++ sels.map (fun cs => filterControlSelection cs inc), acc.2) := by
  induction sels with
  | nil => intro acc; simp
  | cons cs sels ih =>
    intro acc
    have hstep : relatedStep inc acc cs = (acc.1 ++ [filterControlSelection cs inc], acc.2) := by
      unfold relatedStep
      rw [if_neg (h cs (List.mem_cons_self cs sels))]
    rw [List.foldl_cons, hstep, ih (fun x hx => h x (List.mem_cons_of_mem cs hx))]
    rw [List.map_cons, List.append_assoc, List.singleton_append]

theorem relatedFold_exists_empty (inc : List String) {sels : List AssessedControls}
    (h : ∃ cs ∈ sels, (filterControlSelection cs inc).includeControls = none) :
    ∀ acc : List AssessedControls × Activity,
      (sels.foldl (relatedStep inc) acc).2.relatedControls = none := by
  induction sels with
  | nil => exact absurd h (by simp)
  | cons cs sels ih =>
    intro acc
    rw [List.foldl_cons]
    by_cases hc : (filterControlSelection cs inc).includeControls = none
    · apply relatedFold_rel_none
      unfold relatedStep
      dsimp only
      rw [if_pos hc]
    · rcases h with ⟨cs₀, hmem, hcs₀⟩
      rcases List.mem_cons.mp hmem with rfl | hmem'
      · exact absurd hcs₀ hc
      · exact ih ⟨cs₀, hmem', hcs₀⟩ _
/-- After the `RelatedControls` block, everything reachable through the
activity's `RelatedControls` container is fully filtered. -/
theorem processActivityRelated_goodRC (inc : List String) (act : Activity) :
    GoodRC inc (processActivityRelated inc act).relatedControls := by
  unfold processActivityRelated
  split
  · rename_i hrel
    rw [hrel]
    exact goodRC_none
  · rename_i rc hrel
    split
    · rename_i hcs
      rw [hrel]
      exact goodRC_of_selections_none hcs
    · rename_i sels hcs
      split
      · rename_i hfold
        rw [hfold]
        exact goodRC_none
      · rename_i rc' hfold
        have hall : ∀ cs ∈ sels, (filterControlSelection cs inc).includeControls ≠ none := by
          intro cs hmem
          by_contra hempty
          have := relatedFold_exists_empty inc ⟨cs, hmem, hempty⟩ ([], act)
          rw [this] at hfold
          exact Option.noConfusion hfold
        intro r hr l hl x hx
        have hr' : r = { rc' with
            controlSelections := some (sels.foldl (relatedStep inc) ([], act)).1 } := by
          exact (Option.some.inj hr).symm
        rw [hr'] at hl
        simp only at hl
        have hl' : l = (sels.foldl (relatedStep inc) ([], act)).1 := (Option.some.inj hl).symm
        rw [hl', relatedFold_fst inc sels ([], act), List.nil_append] at hx
        rcases List.mem_map.mp hx with ⟨cs₀, hcs₀, rfl⟩
        exact ⟨filterControlSelection_idem cs₀ inc, hall cs₀ hcs₀⟩

theorem processActivityRelated_steps (inc : List String) (act : Activity) :
    (processActivityRelated inc act).steps = act.steps := by
  unfold processActivityRelated
  split
  · rfl
  · split
    · rfl
    · split
      · exact relatedFold_steps inc _ ([], act)
      · exact relatedFold_steps inc _ ([], act)

/-- A fully filtered activity is untouched by the `RelatedControls` block. -/
theorem processActivityRelated_fixed (inc : List String) (act : Activity)
    (h : GoodRC inc act.relatedControls) :
    processActivityRelated inc act = act := by
  unfold processActivityRelated
  split
  · rfl
  · rename_i rc hrel
    split
    · rfl
    · rename_i sels hcs
      have hsels : ∀ cs ∈ sels, GoodSel inc cs := h rc hrel sels hcs
      have hall : ∀ cs ∈ sels, (filterControlSelection cs inc).includeControls ≠ none := by
        intro cs hmem
        rw [(hsels cs hmem).1]
        exact (hsels cs hmem).2
      have hmapeq : sels.map (fun cs => filterControlSelection cs inc) = sels :=
        map_filter_fixed (fun cs hmem => (hsels cs hmem).1)
      have hfoldeq : sels.foldl (relatedStep inc) ([], act) = (sels, act) := by
        rw [relatedFold_all_nonempty inc hall ([], act), List.nil_append, hmapeq]
      split
      · rename_i hfold
        rw [hfoldeq] at hfold
        simp only at hfold
        rw [hrel] at hfold
        exact Option.noConfusion hfold
      · rename_i rc' hfold
        rw [hfoldeq] at hfold ⊢
        simp only at hfold ⊢
        rw [hrel] at hfold
        have : rc = rc' := Option.some.inj hfold
        subst this
        rw [rc_eta hcs, act_rel_eta hrel]

/-! Lemmas about the step-selection loop. -/

theorem stepFold_bot (inc : List String) (sels : List AssessedControls) :
    sels.foldl (stepSel inc) none = none := by
  induction sels with
  | nil => rfl
  | cons cs sels ih => rw [List.foldl_cons]; exact ih

/-- Invariant of the loop over one step's control selections (when it does
not panic): the filtered slice accumulates in order; the activity keeps its
steps and props; goodness of the activity's `RelatedControls` is preserved;
the step's `ReviewedControls` is either untouched or cleared; and if it
survives, nothing at all was changed and no selection filtered to empty. -/
theorem stepFold_inv (inc : List String) :
    ∀ (sels : List AssessedControls) (done₀ : List AssessedControls)
      (a₀ : Activity) (s₀ : Step) (done : List AssessedControls) (a : Activity) (s : Step),
      sels.foldl (stepSel inc) (some (done₀, a₀, s₀)) = some (done, a, s) →
      done = done₀ ++ sels.map (fun cs => filterControlSelection cs inc) ∧
      a.steps = a₀.steps ∧ a.props = a₀.props ∧
      (GoodRC inc a₀.relatedControls → GoodRC inc a.relatedControls) ∧
      (s.reviewedControls = s₀.reviewedControls ∨ s.reviewedControls = none) ∧
      (s.reviewedControls ≠ none →
        s = s₀ ∧ a = a₀ ∧
          ∀ cs ∈ sels, (filterControlSelection cs inc).includeControls ≠ none) := by
  intro sels
  induction sels with
  | nil =>
    intro done₀ a₀ s₀ done a s h
    rw [List.foldl_nil] at h
    obtain ⟨h1, h2⟩ := Prod.mk.injEq .. ▸ Option.some.inj h
    obtain ⟨h2, h3⟩ := Prod.mk.injEq .. ▸ h2
    subst h1; subst h2; subst h3
    refine ⟨by simp, rfl, rfl, fun hG => hG, Or.inl rfl, fun _ => ⟨rfl, rfl, by simp⟩⟩
  | cons cs sels ih =>
    intro done₀ a₀ s₀ done a s h
    rw [List.foldl_cons] at h
    by_cases hc : (filterControlSelection cs inc).includeControls = none
    · -- the node filtered to empty: the source dereferences
      -- `activity.RelatedControls`
      cases hrel : a₀.relatedControls with
      | none =>
        rw [show stepSel inc (some (done₀, a₀, s₀)) cs = none by
            unfold stepSel; dsimp only; rw [if_pos hc, hrel], stepFold_bot] at h
        exact Option.noConfusion h
      | some arc =>
        rw [show stepSel inc (some (done₀, a₀, s₀)) cs =
            some (done₀ ++ [filterControlSelection cs inc],
              { a₀ with relatedControls := some { arc with controlSelections := none } },
              { s₀ with reviewedControls := none, props := appendSkipped s₀.props }) by
            unfold stepSel; dsimp only; rw [if_pos hc, hrel]] at h
        obtain ⟨hdone, hsteps, hprops, hgood, hdisj, _⟩ := ih _ _ _ _ _ _ h
        refine ⟨by rw [hdone]; simp, by rw [hsteps], by rw [hprops], ?_, ?_, ?_⟩
        · intro _
          apply hgood
          intro r hr l hl
          cases Option.some.inj hr
          exact absurd hl (by simp)
        · rcases hdisj with hd | hd
          · exact Or.inr hd
          · exact Or.inr hd
        · intro hne
          rcases hdisj with hd | hd
          · rw [hd] at hne; simp at hne
          · exact absurd hd hne
    · rw [show stepSel inc (some (done₀, a₀, s₀)) cs =
          some (done₀ ++ [filterControlSelection cs inc], a₀, s₀) by
          unfold stepSel; dsimp only; rw [if_neg hc]] at h
      obtain ⟨hdone, hsteps, hprops, hgood, hdisj, hsurv⟩ := ih _ _ _ _ _ _ h
      refine ⟨by rw [hdone]; simp, hsteps, hprops, hgood, hdisj, ?_⟩
      intro hne
      obtain ⟨hs, ha, hrest⟩ := hsurv hne
      refine ⟨hs, ha, ?_⟩
      intro x hx
      rcases List.mem_cons.mp hx with rfl | hx'
      · exact hc
      · exact hrest x hx'

/-- Processing a step preserves goodness of the activity's `RelatedControls`
and produces a good step, without touching the activity's steps or props. -/
theorem processStep_good (inc : List String) (a : Activity) (st : Step)
    (a' : Activity) (st' : Step) (hG : GoodRC inc a.relatedControls)
    (h : processStep inc a st = some (a', st')) :
    GoodRC inc a'.relatedControls ∧ GoodStep inc st' ∧
      a'.steps = a.steps ∧ a'.props = a.props := by
  unfold processStep at h
  split at h
  · obtain ⟨h1, h2⟩ := Prod.mk.injEq .. ▸ Option.some.inj h
    subst h1; subst h2
    rename_i hrc
    exact ⟨hG, by unfold GoodStep; rw [hrc]; exact goodRC_none, rfl, rfl⟩
  · rename_i rc hrc
    split at h
    · obtain ⟨h1, h2⟩ := Prod.mk.injEq .. ▸ Option.some.inj h
      subst h1; subst h2
      rename_i hcs
      exact ⟨hG, by unfold GoodStep; rw [hrc]; exact goodRC_of_selections_none hcs, rfl, rfl⟩
    · rename_i sels hcs
      split at h
      · exact Option.noConfusion h
      · rename_i done a₁ s₁ hfold
        obtain ⟨hdone, hsteps, hprops, hgood, hdisj, hsurv⟩ :=
          stepFold_inv inc sels [] a st done a₁ s₁ hfold
        split at h
        · rename_i hs₁
          obtain ⟨h1, h2⟩ := Prod.mk.injEq .. ▸ Option.some.inj h
          subst h1; subst h2
          exact ⟨hgood hG, by unfold GoodStep; rw [hs₁]; exact goodRC_none, hsteps, hprops⟩
        · rename_i src hs₁
          obtain ⟨hsfix, hafix, hnonempty⟩ := hsurv (by rw [hs₁]; exact fun hx => Option.noConfusion hx)
          obtain ⟨h1, h2⟩ := Prod.mk.injEq .. ▸ Option.some.inj h
          subst h1; subst h2
          subst hafix
          refine ⟨hG, ?_, rfl, rfl⟩
          -- the surviving step carries the filtered list, whose members are
          -- fixed points with non-nil include lists
          intro r hr l hl
          cases Option.some.inj hr
          simp only at hl
          cases Option.some.inj hl
          intro x hx
          rw [hdone, List.nil_append] at hx
          rcases List.mem_map.mp hx with ⟨cs₀, hcs₀, rfl⟩
          exact ⟨filterControlSelection_idem cs₀ inc, hnonempty cs₀ hcs₀⟩

theorem stepFold_fixed (inc : List String) {sels : List AssessedControls}
    (h : ∀ cs ∈ sels, GoodSel inc cs) :
    ∀ (done₀ : List AssessedControls) (a₀ : Activity) (s₀ : Step),
      sels.foldl (stepSel inc) (some (done₀, a₀, s₀)) = some (done₀ ++ sels, a₀, s₀) := by
  induction sels with
  | nil => intro done₀ a₀ s₀; simp
  | cons cs sels ih =>
    intro done₀ a₀ s₀
    have hcs := h cs (List.mem_cons_self cs sels)
    have hne : ¬(filterControlSelection cs inc).includeControls = none := by
      rw [hcs.1]; exact hcs.2
    rw [List.foldl_cons,
      show stepSel inc (some (done₀, a₀, s₀)) cs =
          some (done₀ ++ [filterControlSelection cs inc], a₀, s₀) by
        unfold stepSel; dsimp only; rw [if_neg hne],
      hcs.1, ih (fun x hx => h x (List.mem_cons_of_mem cs hx))]
    rw [List.append_assoc, List.singleton_append]

/-- A good step is untouched by step processing, whatever the activity. -/
theorem processStep_fixed (inc : List String) (a : Activity) (st : Step)
    (h : GoodStep inc st) : processStep inc a st = some (a, st) := by
  unfold processStep
  split
  · rfl
  · rename_i rc hrc
    split
    · rfl
    · rename_i sels hcs
      have hsels : ∀ cs ∈ sels, GoodSel inc cs := h rc hrc sels hcs
      rw [stepFold_fixed inc hsels [] a st, List.nil_append]
      split
      · rename_i hne
        exact Option.noConfusion hne
      · rename_i done₁ a₁ src hsrc
        obtain ⟨h1, h2⟩ := Prod.mk.injEq .. ▸ Option.some.inj hsrc
        obtain ⟨h2, h3⟩ := Prod.mk.injEq .. ▸ h2
        subst h1; subst h2; subst h3
        rw [hrc]
        dsimp only
        rw [rc_eta hcs, step_rc_eta hrc]

/-! Lemmas about the `activity.Steps` loop. -/

theorem stepsFold_bot (inc : List String) (stl : List Step) :
    stl.foldl (stepsStep inc) none = none := by
  induction stl with
  | nil => rfl
  | cons st stl ih => rw [List.foldl_cons]; exact ih

theorem stepsFold_good (inc : List String) :
    ∀ (stl : List Step) (done₀ : List Step) (a₀ : Activity),
      GoodRC inc a₀.relatedControls → (∀ st ∈ done₀, GoodStep inc st) →
      ∀ (done : List Step) (a : Activity),
        stl.foldl (stepsStep inc) (some (done₀, a₀)) = some (done, a) →
        GoodRC inc a.relatedControls ∧ (∀ st ∈ done, GoodStep inc st) ∧
          a.steps = a₀.steps ∧ a.props = a₀.props := by
  intro stl
  induction stl with
  | nil =>
    intro done₀ a₀ hG hdone done a h
    rw [List.foldl_nil] at h
    obtain ⟨h1, h2⟩ := Prod.mk.injEq .. ▸ Option.some.inj h
    subst h1; subst h2
    exact ⟨hG, hdone, rfl, rfl⟩
  | cons st stl ih =>
    intro done₀ a₀ hG hdone done a h
    rw [List.foldl_cons] at h
    cases hps : processStep inc a₀ st with
    | none =>
      rw [show stepsStep inc (some (done₀, a₀)) st = none by
          unfold stepsStep; dsimp only; rw [hps], stepsFold_bot] at h
      exact Option.noConfusion h
    | some pr =>
      obtain ⟨a₁, st₁⟩ := pr
      rw [show stepsStep inc (some (done₀, a₀)) st = some (done₀ ++ [st₁], a₁) by
          unfold stepsStep; dsimp only; rw [hps]] at h
      obtain ⟨hG₁, hst₁, hsteps₁, hprops₁⟩ := processStep_good inc a₀ st a₁ st₁ hG hps
      have hdone₁ : ∀ x ∈ done₀ ++ [st₁], GoodStep inc x := by
        intro x hx
        rcases List.mem_append.mp hx with hx' | hx'
        · exact hdone x hx'
        · rw [List.mem_singleton.mp hx']
          exact hst₁
      obtain ⟨hGa, hda, hsa, hpa⟩ := ih (done₀ ++ [st₁]) a₁ hG₁ hdone₁ done a h
      exact ⟨hGa, hda, by rw [hsa, hsteps₁], by rw [hpa, hprops₁]⟩

theorem stepsFold_fixed (inc : List String) {stl : List Step}
    (h : ∀ st ∈ stl, GoodStep inc st) :
    ∀ (done₀ : List Step) (a₀ : Activity),
      stl.foldl (stepsStep inc) (some (done₀, a₀)) = some (done₀ ++ stl, a₀) := by
  induction stl with
  | nil => intro done₀ a₀; simp
  | cons st stl ih =>
    intro done₀ a₀
    rw [List.foldl_cons,
      show stepsStep inc (some (done₀, a₀)) st = some (done₀ ++ [st], a₀) by
        unfold stepsStep; dsimp only
        rw [processStep_fixed inc a₀ st (h st (List.mem_cons_self st stl))],
      ih (fun x hx => h x (List.mem_cons_of_mem st hx))]
    rw [List.append_assoc, List.singleton_append]

/-! Activity-level lemmas. -/

/-- The result of processing any activity is fully filtered. -/
theorem processActivity_good (inc : List String) (act : Activity) (a' : Activity)
    (h : processActivity inc act = some a') : GoodActivity inc a' := by
  unfold processActivity at h
  split at h
  · rename_i hsteps
    cases Option.some.inj h
    exact ⟨processActivityRelated_goodRC inc act, by
      intro stl hstl
      rw [hsteps] at hstl
      exact absurd hstl (by simp)⟩
  · rename_i stl hsteps
    split at h
    · exact Option.noConfusion h
    · rename_i done a₁ hfold
      cases Option.some.inj h
      obtain ⟨hG, hdone, hsteps₁, hprops₁⟩ :=
        stepsFold_good inc stl [] (processActivityRelated inc act)
          (processActivityRelated_goodRC inc act) (by intro x hx; exact absurd hx (by simp))
          done a₁ hfold
      constructor
      · exact hG
      · intro stl' hstl' st hst
        cases Option.some.inj hstl'
        exact hdone st hst

/-- A fully filtered activity is a fixed point of activity processing. -/
theorem processActivity_fixed (inc : List String) (act : Activity)
    (h : GoodActivity inc act) : processActivity inc act = some act := by
  unfold processActivity
  rw [processActivityRelated_fixed inc act h.1]
  split
  · rfl
  · rename_i stl hsteps
    rw [stepsFold_fixed inc (h.2 stl hsteps) [] act, List.nil_append]
    dsimp only
    rw [act_steps_eta hsteps]

/-! Plan-level lemmas. -/

theorem activitiesFold_bot (inc : List String) (acts : List Activity) :
    acts.foldl (activitiesStep inc) none = none := by
  induction acts with
  | nil => rfl
  | cons act acts ih => rw [List.foldl_cons]; exact ih

theorem activitiesFold_good (inc : List String) :
    ∀ (acts : List Activity) (done₀ : List Activity),
      (∀ x ∈ done₀, GoodActivity inc x) →
      ∀ done, acts.foldl (activitiesStep inc) (some done₀) = some done →
        ∀ x ∈ done, GoodActivity inc x := by
  intro acts
  induction acts with
  | nil =>
    intro done₀ h₀ done h
    rw [List.foldl_nil] at h
    cases Option.some.inj h
    exact h₀
  | cons act acts ih =>
    intro done₀ h₀ done h
    rw [List.foldl_cons] at h
    cases hpa : processActivity inc act with
    | none =>
      rw [show activitiesStep inc (some done₀) act = none by
          unfold activitiesStep; dsimp only; rw [hpa], activitiesFold_bot] at h
      exact Option.noConfusion h
    | some a' =>
      rw [show activitiesStep inc (some done₀) act = some (done₀ ++ [a']) by
          unfold activitiesStep; dsimp only; rw [hpa]] at h
      refine ih (done₀ ++ [a']) ?_ done h
      intro x hx
      rcases List.mem_append.mp hx with hx' | hx'
      · exact h₀ x hx'
      · rw [List.mem_singleton.mp hx']
        exact processActivity_good inc act a' hpa

theorem activitiesFold_fixed (inc : List String) {acts : List Activity}
    (h : ∀ x ∈ acts, GoodActivity inc x) :
    ∀ done₀, acts.foldl (activitiesStep inc) (some done₀) = some (done₀ ++ acts) := by
  induction acts with
  | nil => intro done₀; simp
  | cons act acts ih =>
    intro done₀
    rw [List.foldl_cons,
      show activitiesStep inc (some done₀) act = some (done₀ ++ [act]) by
        unfold activitiesStep; dsimp only
        rw [processActivity_fixed inc act (h act (List.mem_cons_self act acts))],
      ih (fun x hx => h x (List.mem_cons_of_mem act hx))]
    rw [List.append_assoc, List.singleton_append]

theorem applyLocalDefinitions_good (inc : List String) (plan p : AssessmentPlan)
    (h : applyLocalDefinitions inc plan = some p) :
    p.reviewedControls = plan.reviewedControls ∧
      (∀ ld, p.localDefinitions = some ld → ∀ acts, ld.activities = some acts →
        ∀ a ∈ acts, GoodActivity inc a) := by
  unfold applyLocalDefinitions at h
  split at h
  · rename_i hld
    cases Option.some.inj h
    refine ⟨rfl, ?_⟩
    intro ld hld' acts hacts a ha
    rw [hld] at hld'
    exact absurd hld' (by simp)
  · rename_i ld hld
    split at h
    · rename_i hacts
      cases Option.some.inj h
      refine ⟨rfl, ?_⟩
      intro ld' hld' acts hacts' a ha
      rw [hld] at hld'
      cases Option.some.inj hld'
      rw [hacts] at hacts'
      exact absurd hacts' (by simp)
    · rename_i acts hacts
      split at h
      · exact Option.noConfusion h
      · rename_i done hfold
        cases Option.some.inj h
        refine ⟨rfl, ?_⟩
        intro ld' hld' acts' hacts' a ha
        simp only at hld'
        cases Option.some.inj hld'
        simp only at hacts'
        cases Option.some.inj hacts'
        exact activitiesFold_good inc acts [] (by intro x hx; exact absurd hx (by simp))
          done hfold a ha

theorem applyLocalDefinitions_fixed (inc : List String) (q : AssessmentPlan)
    (h : ∀ ld, q.localDefinitions = some ld → ∀ acts, ld.activities = some acts →
      ∀ a ∈ acts, GoodActivity inc a) :
    applyLocalDefinitions inc q = some q := by
  unfold applyLocalDefinitions
  split
  · rfl
  · rename_i ld hld
    split
    · rfl
    · rename_i acts hacts
      rw [activitiesFold_fixed inc (h ld hld acts hacts) [], List.nil_append]
      dsimp only
      rw [ld_eta hacts, plan_ld_eta hld]

theorem applyRoot_good (inc : List String) (p : AssessmentPlan) :
    ∀ l, (applyRoot inc p).reviewedControls.controlSelections = some l →
      ∀ cs ∈ l, filterControlSelection cs inc = cs := by
  unfold applyRoot
  split
  · rename_i hcs
    intro l hl
    rw [hcs] at hl
    exact absurd hl (by simp)
  · rename_i sels hcs
    intro l hl cs hcsm
    simp only at hl
    cases Option.some.inj hl
    rcases List.mem_map.mp hcsm with ⟨cs₀, hcs₀, rfl⟩
    exact filterControlSelection_idem cs₀ inc

theorem applyRoot_ld (inc : List String) (p : AssessmentPlan) :
    (applyRoot inc p).localDefinitions = p.localDefinitions := by
  unfold applyRoot
  split <;> rfl

theorem applyRoot_fixed (inc : List String) (q : AssessmentPlan)
    (h : ∀ l, q.reviewedControls.controlSelections = some l →
      ∀ cs ∈ l, filterControlSelection cs inc = cs) :
    applyRoot inc q = q := by
  unfold applyRoot
  split
  · rfl
  · rename_i sels hcs
    rw [map_filter_fixed (h sels hcs)]
    rw [rc_eta hcs, plan_rc_eta rfl]

/-- Pass one establishes full filtering. -/
theorem applyControlScope_good (a : AssessmentScope) (plan q : AssessmentPlan)
    (h : applyControlScope a plan = some q) :
    GoodPlan (buildIncludedControls a) q := by
  unfold applyControlScope at h
  split at h
  · exact Option.noConfusion h
  · rename_i p hloc
    cases Option.some.inj h
    obtain ⟨hrc, hacts⟩ := applyLocalDefinitions_good (buildIncludedControls a) plan p hloc
    constructor
    · exact applyRoot_good (buildIncludedControls a) p
    · rw [applyRoot_ld]
      exact hacts

/-- A fully filtered plan is a fixed point of the applier. -/
theorem applyControlScope_fixed (a : AssessmentScope) (q : AssessmentPlan)
    (hG : GoodPlan (buildIncludedControls a) q) :
    applyControlScope a q = some q := by
  unfold applyControlScope
  rw [applyLocalDefinitions_fixed (buildIncludedControls a) q hG.2]
  dsimp only
  rw [applyRoot_fixed (buildIncludedControls a) q hG.1]

/-! ScopeBuilder: `NewAssessmentScopeFromCDsWithTitles` and friends. -/

/-- OSCAL `ImplementedRequirementControlImplementation` (external type). -/
@[ext]
structure ImplementedRequirement where
  controlId : String
deriving DecidableEq, Repr

/-- OSCAL `ControlImplementationSet` (external type). -/
@[ext]
structure ControlImplementationSet where
  props : Option (List Property)
  source : String
  implementedRequirements : Option (List ImplementedRequirement)
deriving DecidableEq, Repr

/-- OSCAL `DefinedComponent` (external type). -/
@[ext]
structure DefinedComponent where
  controlImplementations : Option (List ControlImplementationSet)
deriving DecidableEq, Repr

/-- OSCAL `ComponentDefinition` (external type). -/
@[ext]
structure ComponentDefinition where
  components : Option (List DefinedComponent)
deriving DecidableEq, Repr

/-- The title-resolution collaborator: `getControlTitle` with its
`ApplicationDirectory`, `Validator` and `ProfileLoader` dependencies closed
over (they only parameterize external document loads).  It receives the
control id and the owning control implementation and either returns a title
or fails. -/
def TitleResolver : Type :=
  String → ControlImplementationSet → Except String String

/-- The state threaded through the builder loops: the `includeControls` set,
the `controlTitles` map, and (ghost, for stating memoization) the list of
control ids the resolver has been invoked on, in order. -/
structure BuildState where
  includeControls : List String
  controlTitles : String → Option String
  callLog : List String

def initialBuildState : BuildState :=
  { includeControls := [], controlTitles := fun _ => none, callLog := [] }

/-- The body of the innermost loop (`for _, ir := range ci.ImplementedRequirements`):
for a non-empty control id, add it to the set; with all three resolver
dependencies present, consult the memo map and invoke the resolver only on a
miss, falling back to the id itself on error; without them, record the id as
its own title. -/
def processIR (resolver : Option TitleResolver) (ci : ControlImplementationSet)
    (st : BuildState) (ir : ImplementedRequirement) : BuildState :=
  if ir.controlId = "" then st
  else
    match resolver with
    | some f =>
      match st.controlTitles ir.controlId with
      | some _ =>
        { st with includeControls := icsAdd st.includeControls ir.controlId }
      | none =>
        match f ir.controlId ci with
        | Except.ok t =>
          { includeControls := icsAdd st.includeControls ir.controlId
            controlTitles := fun x => if x = ir.controlId then some t else st.controlTitles x
            callLog := st.callLog ++ [ir.controlId] }
        | Except.error _ =>
          { includeControls := icsAdd st.includeControls ir.controlId
            controlTitles := fun x =>
              if x = ir.controlId then some ir.controlId else st.controlTitles x
            callLog := st.callLog ++ [ir.controlId] }
    | none =>
      { includeControls := icsAdd st.includeControls ir.controlId
        controlTitles := fun x =>
          if x = ir.controlId then some ir.controlId else st.controlTitles x
        callLog := st.callLog }

/-- One control implementation: skipped without requirements, without a
property bag, or when the trestle framework property is missing or names a
different framework. -/
def processCI (fid : String) (resolver : Option TitleResolver)
    (st : BuildState) (ci : ControlImplementationSet) : BuildState :=
  match ci.implementedRequirements with
  | none => st
  | some irs =>
    match ci.props with
    | none => st
    | some ps =>
      match GetTrestleProp FrameworkProp ps with
      | none => st
      | some fp => if fp.value = fid then irs.foldl (processIR resolver ci) st else st

def processComponent (fid : String) (resolver : Option TitleResolver)
    (st : BuildState) (comp : DefinedComponent) : BuildState :=
  match comp.controlImplementations with
  | none => st
  | some cis => cis.foldl (processCI fid resolver) st

def processCD (fid : String) (resolver : Option TitleResolver)
    (st : BuildState) (cd : ComponentDefinition) : BuildState :=
  match cd.components with
  | none => st
  | some comps => comps.foldl (processComponent fid resolver) st

def finalBuildState (fid : String) (resolver : Option TitleResolver)
    (cds : List ComponentDefinition) : BuildState :=
  cds.foldl (processCD fid resolver) initialBuildState

/-- One output entry per control id: `{id, controlTitles[id], ["*"]}`
(a missing map entry reads as the zero value `""`, which never occurs for
collected ids). -/
def mkControlEntry (titles : String → Option String) (id : String) : ControlEntry :=
  { controlID := id, controlTitle := (titles id).getD "", rules := ["*"] }

/-- The comparison `sort.Slice` uses (as its reflexive closure; the Go
comparator is the strict `<`, and keys are distinct). -/
def entryLE (a b : ControlEntry) : Prop :=
  a.controlID ≤ b.controlID

theorem entryLE_iff_not_lex (a b : ControlEntry) :
    entryLE a b ↔
      ¬ List.Lex (fun c d : Char => c < d) b.controlID.data a.controlID.data := by
  unfold entryLE
  constructor
  · intro h hlt
    have hba : b.controlID < a.controlID := String.lt_iff_toList_lt.mpr hlt
    exact absurd hba (not_lt.mpr h)
  · intro h
    rcases le_or_lt a.controlID b.controlID with hle | hlt
    · exact hle
    · exact absurd (String.lt_iff_toList_lt.mp hlt) h

instance : DecidableRel entryLE := fun a b =>
  @decidable_of_iff _ _ (entryLE_iff_not_lex a b).symm
    (@instDecidableNot _
      (List.Lex.decidableRel (fun c d : Char => c < d) b.controlID.data a.controlID.data))

instance : IsTotal ControlEntry entryLE :=
  ⟨fun a b => le_total a.controlID b.controlID⟩

instance : IsTrans ControlEntry entryLE :=
  ⟨fun _ _ _ h₁ h₂ => le_trans h₁ h₂⟩

/-- The body of `NewAssessmentScopeFromCDsWithTitles` after the nil check,
paired with the ghost resolver call log.  The source's
`for _, id := range controlIDs { if includeControls.Has(id) { includeControls.Added(id) } }`
loop re-inserts existing members of the set and is a no-op, omitted here. -/
def buildScopeCore (fid : String) (resolver : Option TitleResolver)
    (cds : List ComponentDefinition) : AssessmentScope × List String :=
  ({ frameworkID := fid
     includeControls := List.insertionSort entryLE
       ((finalBuildState fid resolver cds).includeControls.map
         (mkControlEntry (finalBuildState fid resolver cds).controlTitles)) },
   (finalBuildState fid resolver cds).callLog)

/-- `NewAssessmentScopeFromCDsWithTitles`: fails (only) when the variadic
`cds` slice is nil. -/
def NewAssessmentScopeFromCDsWithTitles (fid : String) (resolver : Option TitleResolver)
    (cds : Option (List ComponentDefinition)) : Except String AssessmentScope :=
  match cds with
  | none => Except.error "no component definitions found"
  | some l => Except.ok (buildScopeCore fid resolver l).1

/-- `NewAssessmentScopeFromCDs`: backward-compatible entry that never
resolves titles. -/
def NewAssessmentScopeFromCDs (fid : String)
    (cds : Option (List ComponentDefinition)) : Except String AssessmentScope :=
  NewAssessmentScopeFromCDsWithTitles fid none cds

/-- The ghost record of resolver invocations made during a build. -/
def resolverCallLog (fid : String) (resolver : Option TitleResolver)
    (cds : List ComponentDefinition) : List String :=
  (buildScopeCore fid resolver cds).2

/-! Preservation of invariants through the builder loops. -/

theorem processCI_pres {fid : String} {resolver : Option TitleResolver}
    {P : BuildState → Prop}
    (hP : ∀ ci st ir, P st → P (processIR resolver ci st ir)) :
    ∀ st ci, P st → P (processCI fid resolver st ci) := by
  intro st ci h
  unfold processCI
  split
  · exact h
  · split
    · exact h
    · split
      · exact h
      · split
        · exact foldl_preserves (fun s ir hs => hP ci s ir hs) _ st h
        · exact h

theorem processComponent_pres {fid : String} {resolver : Option TitleResolver}
    {P : BuildState → Prop}
    (hP : ∀ ci st ir, P st → P (processIR resolver ci st ir)) :
    ∀ st comp, P st → P (processComponent fid resolver st comp) := by
  intro st comp h
  unfold processComponent
  split
  · exact h
  · exact foldl_preserves (fun s ci hs => processCI_pres hP s ci hs) _ st h

theorem processCD_pres {fid : String} {resolver : Option TitleResolver}
    {P : BuildState → Prop}
    (hP : ∀ ci st ir, P st → P (processIR resolver ci st ir)) :
    ∀ st cd, P st → P (processCD fid resolver st cd) := by
  intro st cd h
  unfold processCD
  split
  · exact h
  · exact foldl_preserves (fun s c hs => processComponent_pres hP s c hs) _ st h

theorem finalBuildState_pres {fid : String} {resolver : Option TitleResolver}
    {P : BuildState → Prop} {cds : List ComponentDefinition}
    (hinit : P initialBuildState)
    (hP : ∀ ci st ir, P st → P (processIR resolver ci st ir)) :
    P (finalBuildState fid resolver cds) :=
  foldl_preserves (fun s cd hs => processCD_pres hP s cd hs) cds initialBuildState hinit

/-- The `includeControls` set stays duplicate-free. -/
theorem processIR_nodup (resolver : Option TitleResolver) (ci : ControlImplementationSet)
    (st : BuildState) (ir : ImplementedRequirement)
    (h : st.includeControls.Nodup) : (processIR resolver ci st ir).includeControls.Nodup := by
  unfold processIR
  split
  · exact h
  · split
    · split
      · exact nodup_icsAdd h
      · split
        · exact nodup_icsAdd h
        · exact nodup_icsAdd h
    · exact nodup_icsAdd h

/-- Adding a requirement only grows the set. -/
theorem processIR_mem_mono (resolver : Option TitleResolver) (ci : ControlImplementationSet)
    (st : BuildState) (ir : ImplementedRequirement) {id : String}
    (h : id ∈ st.includeControls) : id ∈ (processIR resolver ci st ir).includeControls := by
  unfold processIR
  split
  · exact h
  · split
    · split
      · exact mem_icsAdd_of_mem h
      · split
        · exact mem_icsAdd_of_mem h
        · exact mem_icsAdd_of_mem h
    · exact mem_icsAdd_of_mem h

/-- A non-empty requirement id lands in the set. -/
theorem processIR_mem_self (resolver : Option TitleResolver) (ci : ControlImplementationSet)
    (st : BuildState) (ir : ImplementedRequirement) (h : ir.controlId ≠ "") :
    ir.controlId ∈ (processIR resolver ci st ir).includeControls := by
  unfold processIR
  rw [if_neg h]
  split
  · split
    · exact mem_icsAdd_self
    · split
      · exact mem_icsAdd_self
      · exact mem_icsAdd_self
  · exact mem_icsAdd_self

/-- Memoization invariant: the resolver call log is duplicate-free and every
logged id already has a memoized title. -/
def MemoInv (st : BuildState) : Prop :=
  st.callLog.Nodup ∧ ∀ id ∈ st.callLog, (st.controlTitles id).isSome = true

/-- Every id in the set has a title recorded. -/
def SetTitles (st : BuildState) : Prop :=
  ∀ id ∈ st.includeControls, (st.controlTitles id).isSome = true

/-- Provenance of titles under a supplied resolver: every recorded title is
either the id itself (the fallback) or a successful resolver answer. -/
def TitleProv (f : TitleResolver) (st : BuildState) : Prop :=
  ∀ id t, st.controlTitles id = some t →
    t = id ∨ ∃ ci, f id ci = Except.ok t

/-- Without a resolver every recorded title is the id itself. -/
def IdTitles (st : BuildState) : Prop :=
  ∀ id t, st.controlTitles id = some t → t = id

theorem processIR_memo (resolver : Option TitleResolver) (ci : ControlImplementationSet)
    (st : BuildState) (ir : ImplementedRequirement)
    (h : MemoInv st) : MemoInv (processIR resolver ci st ir) := by
  unfold processIR
  split
  · exact h
  · rename_i hne
    split
    · rename_i f
      split
      · exact h
      · rename_i hmiss
        have hnotmem : ir.controlId ∉ st.callLog := by
          intro hmem
          have := h.2 _ hmem
          rw [hmiss] at this
          simp at this
        split
        · refine ⟨by simp [List.nodup_append, h.1, hnotmem], ?_⟩
          intro id hid
          rcases List.mem_append.mp hid with hid' | hid'
          · by_cases hx : id = ir.controlId
            · simp [hx]
            · simp only [hx, if_false]
              exact h.2 id hid'
          · rw [List.mem_singleton.mp hid']
            simp
        · refine ⟨by simp [List.nodup_append, h.1, hnotmem], ?_⟩
          intro id hid
          rcases List.mem_append.mp hid with hid' | hid'
          · by_cases hx : id = ir.controlId
            · simp [hx]
            · simp only [hx, if_false]
              exact h.2 id hid'
          · rw [List.mem_singleton.mp hid']
            simp
    · refine ⟨h.1, ?_⟩
      intro id hid
      by_cases hx : id = ir.controlId
      · simp [hx]
      · simp only [hx, if_false]
        exact h.2 id hid

theorem processIR_setTitles (resolver : Option TitleResolver) (ci : ControlImplementationSet)
    (st : BuildState) (ir : ImplementedRequirement)
    (h : SetTitles st) : SetTitles (processIR resolver ci st ir) := by
  unfold processIR
  split
  · exact h
  · split
    · rename_i f
      split
      · rename_i t' hhit
        intro id hid
        rcases mem_icsAdd.mp hid with hid' | rfl
        · exact h id hid'
        · simp [hhit]
      · split
        · intro id hid
          rcases mem_icsAdd.mp hid with hid' | rfl
          · by_cases hx : id = ir.controlId
            · simp [hx]
            · simp only [hx, if_false]
              exact h id hid'
          · simp
        · intro id hid
          rcases mem_icsAdd.mp hid with hid' | rfl
          · by_cases hx : id = ir.controlId
            · simp [hx]
            · simp only [hx, if_false]
              exact h id hid'
          · simp
    · intro id hid
      rcases mem_icsAdd.mp hid with hid' | rfl
      · by_cases hx : id = ir.controlId
        · simp [hx]
        · simp only [hx, if_false]
          exact h id hid'
      · simp

theorem processIR_titleProv (f : TitleResolver) (ci : ControlImplementationSet)
    (st : BuildState) (ir : ImplementedRequirement)
    (h : TitleProv f st) : TitleProv f (processIR (some f) ci st ir) := by
  unfold processIR
  split
  · exact h
  · dsimp only
    split
    · exact h
    · split
      · rename_i t hok
        intro id t' ht'
        dsimp only at ht'
        by_cases hx : id = ir.controlId
        · rw [hx, if_pos rfl] at ht'
          cases Option.some.inj ht'
          exact Or.inr ⟨ci, hx ▸ hok⟩
        · rw [if_neg hx] at ht'
          exact h id t' ht'
      · intro id t' ht'
        dsimp only at ht'
        by_cases hx : id = ir.controlId
        · rw [hx, if_pos rfl] at ht'
          cases Option.some.inj ht'
          exact Or.inl hx.symm
        · rw [if_neg hx] at ht'
          exact h id t' ht'

theorem processIR_idTitles (ci : ControlImplementationSet)
    (st : BuildState) (ir : ImplementedRequirement)
    (h : IdTitles st) : IdTitles (processIR none ci st ir) := by
  unfold processIR
  split
  · exact h
  · dsimp only
    intro id t' ht'
    dsimp only at ht'
    by_cases hx : id = ir.controlId
    · rw [hx, if_pos rfl] at ht'
      cases Option.some.inj ht'
      exact hx.symm
    · rw [if_neg hx] at ht'
      exact h id t' ht'

theorem finalBuildState_nodup (fid : String) (resolver : Option TitleResolver)
    (cds : List ComponentDefinition) :
    (finalBuildState fid resolver cds).includeControls.Nodup :=
  finalBuildState_pres List.nodup_nil
    (fun ci st ir h => processIR_nodup resolver ci st ir h)

theorem finalBuildState_memo (fid : String) (resolver : Option TitleResolver)
    (cds : List ComponentDefinition) : MemoInv (finalBuildState fid resolver cds) :=
  finalBuildState_pres ⟨List.nodup_nil, by intro id hid; exact absurd hid (List.not_mem_nil id)⟩
    (fun ci st ir h => processIR_memo resolver ci st ir h)

theorem finalBuildState_setTitles (fid : String) (resolver : Option TitleResolver)
    (cds : List ComponentDefinition) : SetTitles (finalBuildState fid resolver cds) :=
  finalBuildState_pres (by intro id hid; exact absurd hid (List.not_mem_nil id))
    (fun ci st ir h => processIR_setTitles resolver ci st ir h)

theorem finalBuildState_titleProv (fid : String) (f : TitleResolver)
    (cds : List ComponentDefinition) : TitleProv f (finalBuildState fid (some f) cds) :=
  finalBuildState_pres (by intro id t ht; exact Option.noConfusion ht)
    (fun ci st ir h => processIR_titleProv f ci st ir h)

theorem finalBuildState_idTitles (fid : String)
    (cds : List ComponentDefinition) : IdTitles (finalBuildState fid none cds) :=
  finalBuildState_pres (by intro id t ht; exact Option.noConfusion ht)
    (fun ci st ir h => processIR_idTitles ci st ir h)

/-- Every non-empty control id of an in-framework implemented requirement is
collected into the set. -/
theorem mem_finalBuildState (fid : String) (resolver : Option TitleResolver)
    {cds : List ComponentDefinition} {cd : ComponentDefinition}
    {comps : List DefinedComponent} {comp : DefinedComponent}
    {cis : List ControlImplementationSet} {ci : ControlImplementationSet}
    {irs : List ImplementedRequirement} {ir : ImplementedRequirement}
    {ps : List Property} {fp : Property}
    (h1 : cd ∈ cds) (h2 : cd.components = some comps) (h3 : comp ∈ comps)
    (h4 : comp.controlImplementations = some cis) (h5 : ci ∈ cis)
    (h6 : ci.implementedRequirements = some irs) (h7 : ci.props = some ps)
    (h8 : GetTrestleProp FrameworkProp ps = some fp) (h9 : fp.value = fid)
    (h10 : ir ∈ irs) (h11 : ir.controlId ≠ "") :
    ir.controlId ∈ (finalBuildState fid resolver cds).includeControls := by
  have estIR : ∀ st, ir.controlId ∈ (processIR resolver ci st ir).includeControls :=
    fun st => processIR_mem_self resolver ci st ir h11
  have estCI : ∀ st, ir.controlId ∈ (processCI fid resolver st ci).includeControls := by
    intro st
    unfold processCI
    rw [h6]
    dsimp only
    rw [h7]
    dsimp only
    rw [h8]
    dsimp only
    rw [if_pos h9]
    exact foldl_pred_of_mem (fun s x hs => processIR_mem_mono resolver ci s x hs)
      estIR h10 st
  have estComp : ∀ st, ir.controlId ∈ (processComponent fid resolver st comp).includeControls := by
    intro st
    unfold processComponent
    rw [h4]
    exact foldl_pred_of_mem
      (fun s x hs => processCI_pres (fun c s' i hs' => processIR_mem_mono resolver c s' i hs') s x hs)
      estCI h5 st
  have estCD : ∀ st, ir.controlId ∈ (processCD fid resolver st cd).includeControls := by
    intro st
    unfold processCD
    rw [h2]
    exact foldl_pred_of_mem
      (fun s x hs => processComponent_pres
        (fun c s' i hs' => processIR_mem_mono resolver c s' i hs') s x hs)
      estComp h3 st
  exact foldl_pred_of_mem
    (fun s x hs => processCD_pres
      (fun c s' i hs' => processIR_mem_mono resolver c s' i hs') s x hs)
    estCD h1 initialBuildState

/-- The entries of the produced scope are exactly one `ControlEntry` per
member of the collected set. -/
theorem mem_scope_entries {fid : String} {resolver : Option TitleResolver}
    {cds : List ComponentDefinition} {e : ControlEntry} :
    e ∈ (buildScopeCore fid resolver cds).1.includeControls ↔
      ∃ id ∈ (finalBuildState fid resolver cds).includeControls,
        e = mkControlEntry (finalBuildState fid resolver cds).controlTitles id := by
  unfold buildScopeCore
  dsimp only
  rw [(List.perm_insertionSort entryLE _).mem_iff, List.mem_map]
  constructor
  · rintro ⟨id, hid, rfl⟩
    exact ⟨id, hid, rfl⟩
  · rintro ⟨id, hid, rfl⟩
    exact ⟨id, hid, rfl⟩

theorem map_controlID_mkEntries (titles : String → Option String) (ids : List String) :
    (ids.map (mkControlEntry titles)).map ControlEntry.controlID = ids := by
  rw [List.map_map]
  exact List.map_id _

theorem countP_eq_one_of_nodup_mem {α : Type} {l : List α} [DecidableEq α]
    (hn : l.Nodup) {x : α} (h : x ∈ l) :
    l.countP (fun y => decide (y = x)) = 1 := by
  induction l with
  | nil => exact absurd h (List.not_mem_nil x)
  | cons a l ih =>
    rcases List.mem_cons.mp h with rfl | h'
    · rw [List.countP_cons_of_pos _ _ (by simp)]
      have hz : l.countP (fun y => decide (y = x)) = 0 := by
        rw [List.countP_eq_zero]
        intro b hb
        simp only [decide_eq_true_eq]
        rintro rfl
        exact (List.nodup_cons.mp hn).1 hb
      rw [hz]
    · rw [List.countP_cons_of_neg, ih (List.nodup_cons.mp hn).2 h']
      simp only [decide_eq_true_eq]
      rintro rfl
      exact (List.nodup_cons.mp hn).1 h'

/-! The claims. -/

/-- C1: the claim states that for every control-selection node without an
include-all marker, the post-filter `IncludeControls` set is a subset of the
node's pre-filter explicit include set, for every in-scope set.  The code
violates this: `filterControlSelection` also feeds every property *name* of
the node's `Props` bag into the original-include set (via
`includeControlsSet.Added(p.Name)`), so an in-scope control that was never
explicitly included is invented whenever its id coincides with a property
name.  Here the node explicitly includes only `ac-1`, carries no include-all
marker, and a property named `ac-2`; with scope `{ac-2}` the post-filter
include list is `[ac-2]`, which is not a subset of `{ac-1}`. -/
theorem c1_filter_invents_membership :
    (filterControlSelection
        { includeAll := none
          includeControls := some [{ controlId := "ac-1" }]
          excludeControls := none
          props := some [{ name := "ac-2", value := "x", ns := "ns1" }] }
        ["ac-2"]).includeControls = some [{ controlId := "ac-2" }] ∧
      "ac-2" ∉ ["ac-1"] := by
  decide

/-- C2: the claim states that `ApplyScope` is total and never fails on any
structurally well-formed plan, including activities without
`RelatedControls`.  The code violates this: when a step's selection filters
to an empty include list, `applyControlScope` executes
`activity.RelatedControls.ControlSelections = nil` before clearing the step,
dereferencing the activity's nil `RelatedControls` pointer — a panic,
modelled as `none`.  The plan below has one activity with no
`RelatedControls` and one step whose only selection (explicit include `x`,
empty scope) filters to empty. -/
theorem c2_applyScope_panics_on_sparse_activity :
    ApplyScope { frameworkID := "fw", includeControls := [] }
      { reviewedControls := { controlSelections := none }
        localDefinitions := some
          { activities := some
              [{ relatedControls := none
                 steps := some
                   [{ reviewedControls := some
                        { controlSelections := some
                            [{ includeAll := none
                               includeControls := some [{ controlId := "x" }]
                               excludeControls := none
                               props := none }] }
                      props := none }]
                 props := none }] } } = none := by
  decide

/-- C3: applying the same scope twice is idempotent: whenever the first
application succeeds (does not panic), applying the same scope to the result
reproduces it exactly — include-all markers are already gone, every
surviving include list is reproduced verbatim (same elements in the same
order), and no further pruning or `skipped` annotation happens. -/
theorem c3_applyScope_idempotent (s : AssessmentScope) (p q : AssessmentPlan)
    (h : ApplyScope s p = some q) : ApplyScope s q = some q :=
  applyControlScope_fixed s q (applyControlScope_good s p q h)

def c3wScope : AssessmentScope :=
  { frameworkID := "fw"
    includeControls := [{ controlID := "a", controlTitle := "t", rules := ["*"] }] }

def c3wPlan : AssessmentPlan :=
  { reviewedControls :=
      { controlSelections := some
          [{ includeAll := none
             includeControls := some [{ controlId := "a" }, { controlId := "b" }]
             excludeControls := none
             props := none }] }
    localDefinitions := none }

def c3wFiltered : AssessmentPlan :=
  { reviewedControls :=
      { controlSelections := some
          [{ includeAll := none
             includeControls := some [{ controlId := "a" }]
             excludeControls := none
             props := none }] }
    localDefinitions := none }

/-- Witness for C3 at a concrete scope and plan. -/
theorem c3_applyScope_idempotent_witness :
    ApplyScope c3wScope c3wPlan = some c3wFiltered ∧
      ApplyScope c3wScope c3wFiltered = some c3wFiltered := by
  have h : ApplyScope c3wScope c3wPlan = some c3wFiltered := by decide
  exact ⟨h, c3_applyScope_idempotent c3wScope c3wPlan c3wFiltered h⟩

def c4Node : AssessedControls :=
  { includeAll := none
    includeControls := some [{ controlId := "a" }]
    excludeControls := none
    props := some [{ name := "p", value := "v", ns := "ns2" }] }

/-- C4: the claim states the per-node filter computes the new include list
as exactly the in-scope identifiers that are explicitly included or covered
by an include-all marker.  The code violates the formula: property names of
the node's bag also count as "originally included", so with explicit
includes `{a}`, no marker, a property named `p`, and scope `[p, a]`, the
code produces `[p, a]` where the claimed formula yields `[a]`. -/
theorem c4_filter_formula_violated :
    (filterControlSelection c4Node ["p", "a"]).includeControls
        = some [{ controlId := "p" }, { controlId := "a" }] ∧
      c4Node.includeAll = none ∧
      "p" ∉ (c4Node.includeControls.getD []).map
        AssessedControlsSelectControlById.controlId := by
  decide

def c5Plan : AssessmentPlan :=
  { reviewedControls := { controlSelections := none }
    localDefinitions := some
      { activities := some
          [{ relatedControls := none
             steps := some
               [{ reviewedControls := some
                    { controlSelections := some
                        [{ includeAll := none
                           includeControls := some [{ controlId := "b" }]
                           excludeControls := none
                           props := none }] }
                  props := none }]
             props := none }] } }

/-- C5: the claim states that a step whose `ReviewedControls` selection
filters to an empty set ends with `ReviewedControls` absent and exactly one
`skipped="true"` property.  The code violates this: before clearing the
step it executes `activity.RelatedControls.ControlSelections = nil`, which
panics (modelled as `none`) whenever the owning activity has no
`RelatedControls` — so for this plan (scope `{a}`, step selection explicitly
including only `b`) no annotation is produced at all and the whole
application crashes. -/
theorem c5_step_skip_panics :
    ApplyScope { frameworkID := "fw"
                 includeControls := [{ controlID := "a", controlTitle := "A", rules := ["*"] }] }
      c5Plan = none := by
  decide

/-- C6 (counterexample): the claim states `BuildScope` fails with the
EmptyInput error for *every* call in which the supplied sequence of
documents is empty.  The source only tests `cds == nil`, so a non-nil empty
slice — `BuildScope(fid, emptySlice...)` — is accepted and produces a scope
with no entries instead of the error. -/
theorem c6_empty_slice_no_error :
    NewAssessmentScopeFromCDsWithTitles "fw" none (some []) =
      Except.ok { frameworkID := "fw", includeControls := [] } := rfl

/-- C6 (amended): `BuildScope` fails with the EmptyInput error
`"no component definitions found"`, returning no scope value, exactly when
the variadic document sequence is nil — in particular for every call that
supplies zero document arguments. -/
theorem c6_nil_input_errors (fid : String) (resolver : Option TitleResolver) :
    NewAssessmentScopeFromCDsWithTitles fid resolver none =
      Except.error "no component definitions found" := rfl

/-- C7: for every successful build, the produced `IncludeControls` carries
no duplicate `ControlID`s, and every control identifier contributed by an
in-framework implemented requirement appears in exactly one entry. -/
theorem c7_no_duplicate_controls (fid : String) (resolver : Option TitleResolver)
    (cds : List ComponentDefinition) (scope : AssessmentScope)
    (h : NewAssessmentScopeFromCDsWithTitles fid resolver (some cds) = Except.ok scope) :
    (scope.includeControls.map ControlEntry.controlID).Nodup ∧
      ∀ cd ∈ cds, ∀ comps, cd.components = some comps →
        ∀ comp ∈ comps, ∀ cis, comp.controlImplementations = some cis →
          ∀ ci ∈ cis, ∀ irs, ci.implementedRequirements = some irs →
            ∀ ps, ci.props = some ps →
              ∀ fp, GetTrestleProp FrameworkProp ps = some fp → fp.value = fid →
                ∀ ir ∈ irs, ir.controlId ≠ "" →
                  scope.includeControls.countP
                    (fun e => decide (e.controlID = ir.controlId)) = 1 := by
  have hscope : scope = (buildScopeCore fid resolver cds).1 := by
    unfold NewAssessmentScopeFromCDsWithTitles at h
    exact (Except.ok.inj h).symm
  subst hscope
  have hnodupSet := finalBuildState_nodup fid resolver cds
  have hperm := List.perm_insertionSort entryLE
    ((finalBuildState fid resolver cds).includeControls.map
      (mkControlEntry (finalBuildState fid resolver cds).controlTitles))
  constructor
  · show (List.map ControlEntry.controlID (List.insertionSort entryLE _)).Nodup
    apply ((hperm.map ControlEntry.controlID).symm).nodup
    rw [map_controlID_mkEntries]
    exact hnodupSet
  · intro cd hcd comps hcomps comp hcomp cis hcis ci hci irs hirs ps hps fp hfp hval ir hir hne
    have hmem := mem_finalBuildState fid resolver hcd hcomps hcomp hcis hci hirs hps hfp hval
      hir hne
    show (List.insertionSort entryLE _).countP _ = 1
    rw [hperm.countP_eq, List.countP_map]
    exact countP_eq_one_of_nodup_mem hnodupSet hmem

def c7wCI : ControlImplementationSet :=
  { props := some [{ name := "Framework", value := "fw", ns := TrestleNameSpace }]
    source := "profile.json"
    implementedRequirements := some [{ controlId := "ac-1" }, { controlId := "ac-2" }] }

def c7wCDs : List ComponentDefinition :=
  [{ components := some
      [{ controlImplementations := some [c7wCI] },
       { controlImplementations := some [c7wCI] }] }]

def c7wScope : AssessmentScope :=
  { frameworkID := "fw"
    includeControls :=
      [{ controlID := "ac-1", controlTitle := "ac-1", rules := ["*"] },
       { controlID := "ac-2", controlTitle := "ac-2", rules := ["*"] }] }

/-- Witness for C7: the same two controls contributed by two components end
up once each. -/
theorem c7_no_duplicate_controls_witness :
    NewAssessmentScopeFromCDsWithTitles "fw" none (some c7wCDs) = Except.ok c7wScope ∧
      (c7wScope.includeControls.map ControlEntry.controlID).Nodup ∧
      c7wScope.includeControls.countP (fun e => decide (e.controlID = "ac-1")) = 1 := by
  have h : NewAssessmentScopeFromCDsWithTitles "fw" none (some c7wCDs) = Except.ok c7wScope := by
    show Except.ok (buildScopeCore "fw" none c7wCDs).1 = Except.ok c7wScope
    exact congrArg Except.ok (by decide)
  have hmain := c7_no_duplicate_controls "fw" none c7wCDs c7wScope h
  refine ⟨h, hmain.1, ?_⟩
  exact hmain.2
    { components := some
        [{ controlImplementations := some [c7wCI] },
         { controlImplementations := some [c7wCI] }] } (by decide)
    _ rfl
    { controlImplementations := some [c7wCI] } (by decide)
    _ rfl
    c7wCI (by decide)
    _ rfl
    _ rfl
    { name := "Framework", value := "fw", ns := TrestleNameSpace } (by decide) rfl
    { controlId := "ac-1" } (by decide) (by decide)

/-- C8: for every successful build, the produced `IncludeControls` sequence
is sorted ascending by `ControlID`, whatever the order of documents,
components and requirements in the input. -/
theorem c8_scope_sorted (fid : String) (resolver : Option TitleResolver)
    (cds : List ComponentDefinition) (scope : AssessmentScope)
    (h : NewAssessmentScopeFromCDsWithTitles fid resolver (some cds) = Except.ok scope) :
    List.Pairwise (fun x y : String => x ≤ y)
      (scope.includeControls.map ControlEntry.controlID) := by
  have hscope : scope = (buildScopeCore fid resolver cds).1 := by
    unfold NewAssessmentScopeFromCDsWithTitles at h
    exact (Except.ok.inj h).symm
  subst hscope
  have hs := List.sorted_insertionSort entryLE
    ((finalBuildState fid resolver cds).includeControls.map
      (mkControlEntry (finalBuildState fid resolver cds).controlTitles))
  show List.Pairwise _ ((List.insertionSort entryLE _).map ControlEntry.controlID)
  exact List.Pairwise.map _ (fun a b hab => hab) hs

def c8wCDs : List ComponentDefinition :=
  [{ components := some
      [{ controlImplementations := some
          [{ props := some [{ name := "Framework", value := "fw", ns := TrestleNameSpace }]
             source := "p.json"
             implementedRequirements := some
               [{ controlId := "b" }, { controlId := "a" }] }] }] }]

def c8wScope : AssessmentScope :=
  { frameworkID := "fw"
    includeControls :=
      [{ controlID := "a", controlTitle := "a", rules := ["*"] },
       { controlID := "b", controlTitle := "b", rules := ["*"] }] }

/-- Witness for C8: requirements supplied in descending order come out
ascending. -/
theorem c8_scope_sorted_witness :
    NewAssessmentScopeFromCDsWithTitles "fw" none (some c8wCDs) = Except.ok c8wScope ∧
      List.Pairwise (fun x y : String => x ≤ y)
        (c8wScope.includeControls.map ControlEntry.controlID) := by
  have h : NewAssessmentScopeFromCDsWithTitles "fw" none (some c8wCDs) = Except.ok c8wScope := by
    show Except.ok (buildScopeCore "fw" none c8wCDs).1 = Except.ok c8wScope
    exact congrArg Except.ok (by decide)
  exact ⟨h, c8_scope_sorted "fw" none c8wCDs c8wScope h⟩

/-- C9: during a build the title resolver is invoked at most once per
distinct control identifier (the ghost call log is duplicate-free); whenever
the resolver fails on an identifier, that identifier is used as the entry's
title and the build still succeeds; and without a resolver (or its
dependencies) every entry's title is its identifier. -/
theorem c9_title_resolution (fid : String) (f : TitleResolver)
    (cds : List ComponentDefinition) :
    (resolverCallLog fid (some f) cds).Nodup ∧
      (∀ e ∈ (buildScopeCore fid (some f) cds).1.includeControls,
        (∀ ci, ∃ msg, f e.controlID ci = Except.error msg) →
          e.controlTitle = e.controlID) ∧
      (∃ scope, NewAssessmentScopeFromCDsWithTitles fid (some f) (some cds) =
        Except.ok scope) ∧
      (∀ e ∈ (buildScopeCore fid none cds).1.includeControls,
        e.controlTitle = e.controlID) := by
  refine ⟨?_, ?_, ⟨_, rfl⟩, ?_⟩
  · exact (finalBuildState_memo fid (some f) cds).1
  · intro e he herr
    rcases mem_scope_entries.mp he with ⟨id, hid, rfl⟩
    have hsome := finalBuildState_setTitles fid (some f) cds id hid
    rcases Option.isSome_iff_exists.mp hsome with ⟨t, ht⟩
    rcases finalBuildState_titleProv fid f cds id t ht with htid | ⟨ci, hok⟩
    · show ((finalBuildState fid (some f) cds).controlTitles id).getD "" = id
      rw [ht, Option.getD_some, htid]
    · rcases herr ci with ⟨msg, hmsg⟩
      rw [show f id ci = Except.error msg from hmsg] at hok
      exact Except.noConfusion hok
  · intro e he
    rcases mem_scope_entries.mp he with ⟨id, hid, rfl⟩
    have hsome := finalBuildState_setTitles fid none cds id hid
    rcases Option.isSome_iff_exists.mp hsome with ⟨t, ht⟩
    have htid := finalBuildState_idTitles fid cds id t ht
    show ((finalBuildState fid none cds).controlTitles id).getD "" = id
    rw [ht, Option.getD_some, htid]

def c9wResolver : TitleResolver := fun _ _ => Except.error "no title"

def c9wCDs : List ComponentDefinition :=
  [{ components := some
      [{ controlImplementations := some
          [{ props := some [{ name := "Framework", value := "fw", ns := TrestleNameSpace }]
             source := "p.json"
             implementedRequirements := some
               [{ controlId := "ac-1" }, { controlId := "ac-1" }, { controlId := "ac-2" }] }] }] }]

/-- Witness for C9: an always-failing resolver sees a repeated identifier;
the call log stays duplicate-free and the identifier becomes the title. -/
theorem c9_title_resolution_witness :
    (resolverCallLog "fw" (some c9wResolver) c9wCDs).Nodup ∧
      ({ controlID := "ac-1", controlTitle := "ac-1", rules := ["*"] } : ControlEntry) ∈
        (buildScopeCore "fw" (some c9wResolver) c9wCDs).1.includeControls ∧
      ({ controlID := "ac-1", controlTitle := "ac-1", rules := ["*"] } : ControlEntry).controlTitle
        = ({ controlID := "ac-1", controlTitle := "ac-1", rules := ["*"] } : ControlEntry).controlID := by
  have h := c9_title_resolution "fw" c9wResolver c9wCDs
  have hmem : ({ controlID := "ac-1", controlTitle := "ac-1", rules := ["*"] } : ControlEntry) ∈
      (buildScopeCore "fw" (some c9wResolver) c9wCDs).1.includeControls := by decide
  exact ⟨h.1, hmem, h.2.1 _ hmem (fun ci => ⟨"no title", rfl⟩)⟩

/-- C10: `filterControlSelection` modifies only the `IncludeAll` and
`IncludeControls` fields of the selection node it visits: the node's
`ExcludeControls` and its own property bag come back exactly as they were,
for every node and every in-scope set. -/
theorem c10_filter_frame (cs : AssessedControls) (inc : List String) :
    (filterControlSelection cs inc).excludeControls = cs.excludeControls ∧
      (filterControlSelection cs inc).props = cs.props :=
  ⟨filter_excludeControls cs inc, filter_props cs inc⟩

end Complyctl
